import Mathlib

/-!
# Verification of `memory_tracker` (src/main.rs)

Shallow embedding of the memory-tracking tool: the `MemoryStats` time-series
store with its statistical reductions, the pure axis-range computation of
`generate_chart`, the CSV-content builder, and the sampling loop of `main`.

Modelling conventions:
* Rust `f64` times and statistics are modelled as exact rationals (`ℚ`); the
  spec speaks of these quantities as real numbers.
* Rust `u64` memory values are naturals.  Each value read by the program fits
  in 64 bits; arithmetic that can exceed 64 bits (the sum in `mean`, the sum
  of the two middle values in `median`) is taken `% 2^64`, Rust's
  release-mode wrap-around semantics.
* Wall-clock time and the `/proc` reader are inputs: the loop receives the
  elapsed time observed at each tick and the reader's result at each tick as
  functions of the tick index, plus a fuel bound (the real loop can run
  forever when no maximum duration is configured).
-/

/-- Wrap-around modulus of Rust `u64` arithmetic. -/
def U64 : ℕ := 2 ^ 64

/-- `MemoryStats` from main.rs: `samples: Vec<(f64, u64)>`, the time-ordered
list of `(time_seconds, memory_kb)` samples. -/
structure MemoryStats where
  samples : List (ℚ × ℕ)
deriving DecidableEq

/-- `MemoryStats::new()`: empty sample vector. -/
def MemoryStats.new : MemoryStats := ⟨[]⟩

/-- `MemoryStats::add_sample`: `self.samples.push((time, memory_kb))`. -/
def MemoryStats.add_sample (s : MemoryStats) (time : ℚ) (memory_kb : ℕ) :
    MemoryStats :=
  ⟨s.samples ++ [(time, memory_kb)]⟩

/-- The memory values in time order: `self.samples.iter().map(|(_, mem)| mem)`. -/
def MemoryStats.values (s : MemoryStats) : List ℕ :=
  s.samples.map Prod.snd

/-- `MemoryStats::mean`: `0.0` if empty, else `sum / len` where `sum` is the
`u64` sum of the memory values (wrapping, hence `% U64`). -/
def MemoryStats.mean (s : MemoryStats) : ℚ :=
  if s.samples.isEmpty then 0
  else ((s.values.sum % U64 : ℕ) : ℚ) / (s.samples.length : ℚ)

/-- The sorted copy of the memory values made inside `median`:
`values.sort_unstable()` sorts ascending (`insertionSort (· ≤ ·)` computes the
same list: the ascending reordering of a list of naturals is unique). -/
def MemoryStats.sortedValues (s : MemoryStats) : List ℕ :=
  s.values.insertionSort (· ≤ ·)

/-- `MemoryStats::median`: `0.0` if empty; otherwise with the sorted copy `v`
of the memory values and `mid = v.len() / 2`, the value `v[mid]` for odd
length, and `(v[mid-1] + v[mid]) as f64 / 2.0` for even length (the `u64`
addition wraps, hence `% U64`). -/
def MemoryStats.median (s : MemoryStats) : ℚ :=
  if s.samples.isEmpty then 0
  else
    let v := s.sortedValues
    let mid := v.length / 2
    if v.length % 2 == 0 then
      (((v.getD (mid - 1) 0 + v.getD mid 0) % U64 : ℕ) : ℚ) / 2
    else
      (v.getD mid 0 : ℚ)

/-- `MemoryStats::max`: `self.samples.iter().map(..).max().copied().unwrap_or(0)`.
`List.maximum` is the `Option`-valued maximum, `unbot' 0` the `unwrap_or(0)`. -/
def MemoryStats.max (s : MemoryStats) : ℕ :=
  (s.values.maximum).unbot' 0

/-- `MemoryStats::min`: `self.samples.iter().map(..).min().copied().unwrap_or(0)`. -/
def MemoryStats.min (s : MemoryStats) : ℕ :=
  (s.values.minimum).untop' 0

/-- `mean` with its division hazard explicit: `none` would mean the
`sum / len` division is reached with a zero denominator.  The empty series
returns `0.0` before the division is reached. -/
def MemoryStats.meanChecked (s : MemoryStats) : Option ℚ :=
  if s.samples.isEmpty then some 0
  else if s.samples.length = 0 then none
  else some (((s.values.sum % U64 : ℕ) : ℚ) / (s.samples.length : ℚ))

/-- `median` with its indexing hazards explicit: `none` would mean an
out-of-bounds vector index, a Rust panic.  The empty series returns `0.0`
before any index is formed. -/
def MemoryStats.medianChecked (s : MemoryStats) : Option ℚ :=
  if s.samples.isEmpty then some 0
  else
    let v := s.sortedValues
    let mid := v.length / 2
    if v.length % 2 == 0 then
      match v[mid - 1]?, v[mid]? with
      | some a, some b => some ((((a + b) % U64 : ℕ) : ℚ) / 2)
      | _, _ => none
    else
      v[mid]?.map (fun x => (x : ℚ))

/-- The body of `median` as an explicit state transformer on the store, making
the frame effect visible: the sort acts on the copy `v`, never on
`self.samples`, and the store component returned is the one received. -/
def MemoryStats.medianRun (s : MemoryStats) : ℚ × MemoryStats :=
  if s.samples.isEmpty then (0, s)
  else
    let v := (s.samples.map Prod.snd).insertionSort (· ≤ ·)
    let mid := v.length / 2
    if v.length % 2 == 0 then
      ((((v.getD (mid - 1) 0 + v.getD mid 0) % U64 : ℕ) : ℚ) / 2, s)
    else
      ((v.getD mid 0 : ℚ), s)

/-- The spec's median, written from the spec's words: the memory values sorted
ascending into a list of length `n`; the value at index `n/2` when `n` is odd,
and the exact average of the values at indices `n/2 - 1` and `n/2` when `n`
is even. -/
def specMedian (l : List ℕ) : ℚ :=
  let v := l.insertionSort (· ≤ ·)
  let n := v.length
  if n % 2 = 1 then (v.getD (n / 2) 0 : ℚ)
  else ((v.getD (n / 2 - 1) 0 : ℚ) + (v.getD (n / 2) 0 : ℚ)) / 2

/-- The axis parameters computed by `generate_chart` before invoking the
plotting backend. -/
structure ChartParams where
  max_time : ℚ
  y_min : ℚ
  y_max : ℚ
deriving DecidableEq

/-- The pure axis-range computation of `generate_chart`:
`max_time = samples.last().map(|(t, _)| *t).unwrap_or(0.0)`,
memory bounds scaled to MB by `/ 1024`, margin `(max_mb - min_mb) / 10`,
`y_min = (min_mb - margin).max(0.0)`, `y_max = max_mb + margin`.  The x-axis
range passed to the backend is `0..max_time`. -/
def generate_chart (stats : MemoryStats) : ChartParams :=
  let max_time := (stats.samples.getLast?.map Prod.fst).getD 0
  let max_memory_mb := (stats.max : ℚ) / 1024
  let min_memory_mb := (stats.min : ℚ) / 1024
  let y_margin := (max_memory_mb - min_memory_mb) / 10
  { max_time := max_time
    y_min := Max.max (min_memory_mb - y_margin) 0
    y_max := max_memory_mb + y_margin }

/-- The CSV content built in `main`: starting from the empty string, for each
sample in time order `csv_content.push_str(&format!("{}\n", memory))`. -/
def csv_content (stats : MemoryStats) : String :=
  stats.samples.foldl (fun acc p => acc ++ (toString p.2 ++ "\n")) ""

/-- How the sampling loop ended: `break` on the duration check, or `break` on
a reader failure. -/
inductive StopReason where
  | stoppedByDuration
  | stoppedByTargetGone
deriving DecidableEq

/-- The duration cutoff test of `main`: with a configured maximum duration it
is `elapsed >= max_dur`; with none it never fires. -/
def durationReached (max_duration : Option ℚ) (elapsed : ℚ) : Bool :=
  match max_duration with
  | some max_dur => decide (max_dur ≤ elapsed)
  | none => false

/-- The sampling loop of `main`.  `elapsedAt k` is the elapsed time observed
at tick `k`, `readAt k` the reader's result at tick `k` (`some kb` for
`Ok(memory_kb)`, `none` for `Err`).  Each tick: check the duration cutoff and
`break` before reading if it fires; otherwise read, appending on success and
`break`ing on failure.  `fuel` bounds the number of ticks modelled (`none`
when it is exhausted before the loop stops). -/
def runLoop (max_duration : Option ℚ) (elapsedAt : ℕ → ℚ)
    (readAt : ℕ → Option ℕ) :
    ℕ → ℕ → MemoryStats → Option (MemoryStats × StopReason)
  | 0, _, _ => none
  | fuel + 1, k, stats =>
    if durationReached max_duration (elapsedAt k) then
      some (stats, StopReason.stoppedByDuration)
    else
      match readAt k with
      | some memory_kb =>
          runLoop max_duration elapsedAt readAt fuel (k + 1)
            (stats.add_sample (elapsedAt k) memory_kb)
      | none => some (stats, StopReason.stoppedByTargetGone)

/-- The final statistics report printed by `main` after the loop. -/
structure RunReport where
  total_samples : ℕ
  mean : ℚ
  median : ℚ
  max : ℕ
  min : ℕ
deriving DecidableEq

/-- The post-loop finishing sequence of `main`: the statistics report is
always computed; `generate_chart` is invoked only when the series is
non-empty (`some` of its axis parameters, `none` for the skip branch); the
CSV content is produced whenever a path is configured, with no emptiness
test. -/
def finishRun (stats : MemoryStats) (csv_output : Option String) :
    RunReport × Option ChartParams × Option String :=
  (⟨stats.samples.length, stats.mean, stats.median, stats.max, stats.min⟩,
   if stats.samples.isEmpty then none else some (generate_chart stats),
   csv_output.map (fun _ => csv_content stats))

/-! ## Basic lemmas about the store -/

lemma MemoryStats.values_length (s : MemoryStats) :
    s.values.length = s.samples.length := by
  simp [MemoryStats.values]

lemma MemoryStats.sortedValues_perm (s : MemoryStats) :
    s.sortedValues.Perm s.values :=
  List.perm_insertionSort _ _

lemma MemoryStats.sortedValues_sorted (s : MemoryStats) :
    s.sortedValues.Sorted (· ≤ ·) :=
  List.sorted_insertionSort _ _

lemma MemoryStats.sortedValues_length (s : MemoryStats) :
    s.sortedValues.length = s.samples.length := by
  rw [s.sortedValues_perm.length_eq, s.values_length]

lemma MemoryStats.sortedValues_congr {s t : MemoryStats}
    (h : s.values.Perm t.values) : s.sortedValues = t.sortedValues :=
  List.eq_of_perm_of_sorted ((s.sortedValues_perm.trans h).trans
    t.sortedValues_perm.symm) s.sortedValues_sorted t.sortedValues_sorted

lemma MemoryStats.median_congr {s t : MemoryStats}
    (h : s.values.Perm t.values) : s.median = t.median := by
  have hlen : s.samples.length = t.samples.length := by
    have hv := h.length_eq
    rwa [s.values_length, t.values_length] at hv
  have hemp : s.samples.isEmpty = t.samples.isEmpty := by
    rcases hs : s.samples with _ | ⟨a, l⟩ <;> rcases ht : t.samples with _ | ⟨b, m⟩ <;>
      simp_all
  unfold MemoryStats.median
  rw [MemoryStats.sortedValues_congr h, hemp]

lemma MemoryStats.meanChecked_eq (s : MemoryStats) :
    s.meanChecked = some s.mean := by
  by_cases hemp : s.samples.isEmpty
  · simp [MemoryStats.meanChecked, MemoryStats.mean, hemp]
  · have hne : s.samples ≠ [] := by
      simpa [List.isEmpty_iff] using hemp
    have hlen : s.samples.length ≠ 0 := by
      simpa [List.length_eq_zero] using hne
    simp [MemoryStats.meanChecked, MemoryStats.mean, hemp, hlen]

lemma MemoryStats.medianChecked_eq (s : MemoryStats) :
    s.medianChecked = some s.median := by
  by_cases hemp : s.samples.isEmpty
  · simp [MemoryStats.medianChecked, MemoryStats.median, hemp]
  · have hne : s.samples ≠ [] := by
      simpa [List.isEmpty_iff] using hemp
    have hpos : 0 < s.sortedValues.length := by
      rw [s.sortedValues_length]
      exact List.length_pos.mpr hne
    by_cases hpar : s.sortedValues.length % 2 = 0
    · have h2 : 2 ≤ s.sortedValues.length := by omega
      have hmid : s.sortedValues.length / 2 < s.sortedValues.length := by omega
      have hmid1 : s.sortedValues.length / 2 - 1 < s.sortedValues.length := by omega
      simp [MemoryStats.medianChecked, MemoryStats.median, hemp, hpar,
        List.getElem?_eq_getElem hmid, List.getElem?_eq_getElem hmid1,
        List.getD_eq_getElem _ _ hmid, List.getD_eq_getElem _ _ hmid1]
    · have hmid : s.sortedValues.length / 2 < s.sortedValues.length := by omega
      simp [MemoryStats.medianChecked, MemoryStats.median, hemp, hpar,
        List.getElem?_eq_getElem hmid, List.getD_eq_getElem _ _ hmid]

/-! ## Claim theorems -/

/-- **C2**: for an empty series (zero samples), `mean`, `median`, `max` and
`min` all return `0`; the checked variants show no division by zero and no
out-of-bounds index is reached (no panic, no error). -/
theorem empty_series_stats_zero (s : MemoryStats) (h : s.samples = []) :
    s.mean = 0 ∧ s.median = 0 ∧ s.max = 0 ∧ s.min = 0 ∧
      s.meanChecked = some 0 ∧ s.medianChecked = some 0 := by
  cases s with
  | mk samples =>
    subst h
    refine ⟨rfl, rfl, rfl, rfl, rfl, rfl⟩

/-- Witness for C2 at the concrete empty store. -/
theorem empty_series_stats_zero_witness :
    MemoryStats.new.samples = [] ∧
      (MemoryStats.new.mean = 0 ∧ MemoryStats.new.median = 0 ∧
        MemoryStats.new.max = 0 ∧ MemoryStats.new.min = 0 ∧
        MemoryStats.new.meanChecked = some 0 ∧
        MemoryStats.new.medianChecked = some 0) :=
  ⟨rfl, empty_series_stats_zero MemoryStats.new rfl⟩

/-- **C8**: `median` leaves the stored sample sequence unchanged: the
state-transformer reading of its body returns the store it received (the sort
acts on a copy of the memory values), and its value component is `median`. -/
theorem median_preserves_samples (s : MemoryStats) :
    s.medianRun.2 = s ∧ s.medianRun.2.samples = s.samples ∧
      s.medianRun.1 = s.median := by
  by_cases hemp : s.samples.isEmpty <;>
    by_cases hc : s.samples.length % 2 = 0 <;>
      simp [MemoryStats.medianRun, MemoryStats.median, MemoryStats.sortedValues,
        MemoryStats.values, hemp, hc]

lemma MemoryStats.median_even (s : MemoryStats) (hne : s.samples ≠ [])
    (hpar : s.sortedValues.length % 2 = 0) :
    s.median = (((s.sortedValues.getD (s.sortedValues.length / 2 - 1) 0 +
      s.sortedValues.getD (s.sortedValues.length / 2) 0) % U64 : ℕ) : ℚ) / 2 := by
  simp [MemoryStats.median, hne, hpar]

lemma MemoryStats.median_odd (s : MemoryStats) (hne : s.samples ≠ [])
    (hpar : s.sortedValues.length % 2 = 1) :
    s.median = (s.sortedValues.getD (s.sortedValues.length / 2) 0 : ℚ) := by
  simp [MemoryStats.median, hne, hpar]

lemma specMedian_even (l : List ℕ) (hpar : l.length % 2 = 0) :
    specMedian l = (((l.insertionSort (· ≤ ·)).getD (l.length / 2 - 1) 0 : ℚ) +
      ((l.insertionSort (· ≤ ·)).getD (l.length / 2) 0 : ℚ)) / 2 := by
  simp [specMedian, hpar]

lemma specMedian_odd (l : List ℕ) (hpar : l.length % 2 = 1) :
    specMedian l = ((l.insertionSort (· ≤ ·)).getD (l.length / 2) 0 : ℚ) := by
  simp [specMedian, hpar]

/-- **C1**: for every non-empty series — provided the `u64` sum of the two
middle sorted values does not wrap (always the case for realistic memory
magnitudes) — `median` equals the spec's median: the memory values sorted
ascending, middle value for odd length, exact average of the two middle
values for even length.  The sorted list really is an ascending reordering
of the memory values; in particular every series holding the values
`[100, 300, 200, 400]` in any insertion order has median `250`, and every
series holding `[100, 200, 300]` has median `200`. -/
theorem median_is_sorted_middle (s : MemoryStats) (hne : s.samples ≠ [])
    (hmid : s.sortedValues.length % 2 = 0 →
      s.sortedValues.getD (s.sortedValues.length / 2 - 1) 0 +
        s.sortedValues.getD (s.sortedValues.length / 2) 0 < U64) :
    s.median = specMedian s.values ∧
      s.sortedValues.Sorted (· ≤ ·) ∧ s.sortedValues.Perm s.values ∧
      (∀ t : MemoryStats, t.values.Perm [100, 300, 200, 400] → t.median = 250) ∧
      (∀ t : MemoryStats, t.values = [100, 200, 300] → t.median = 200) := by
  have hlen := s.sortedValues_length
  have hvlen := s.values_length
  refine ⟨?_, s.sortedValues_sorted, s.sortedValues_perm, ?_, ?_⟩
  · by_cases hpar : s.sortedValues.length % 2 = 0
    · have hl : s.values.length % 2 = 0 := by omega
      rw [MemoryStats.median_even s hne hpar, specMedian_even s.values hl,
        Nat.mod_eq_of_lt (hmid hpar)]
      have hidx : s.values.length = s.sortedValues.length := by omega
      rw [hidx]
      show ((_ + _ : ℕ) : ℚ) / 2 = _
      push_cast
      rfl
    · have hpar1 : s.sortedValues.length % 2 = 1 := by omega
      have hl : s.values.length % 2 = 1 := by omega
      rw [MemoryStats.median_odd s hne hpar1, specMedian_odd s.values hl]
      have hidx : s.values.length = s.sortedValues.length := by omega
      rw [hidx]
      rfl
  · intro t ht
    have hc : t.median =
        (⟨[((0 : ℚ), 100), (1, 300), (2, 200), (3, 400)]⟩ : MemoryStats).median :=
      MemoryStats.median_congr (by simpa [MemoryStats.values] using ht)
    rw [hc]
    norm_num [MemoryStats.median, MemoryStats.sortedValues, MemoryStats.values, U64,
      List.insertionSort, List.orderedInsert]
  · intro t ht
    have hc : t.median =
        (⟨[((0 : ℚ), 100), (1, 200), (2, 300)]⟩ : MemoryStats).median :=
      MemoryStats.median_congr (by rw [ht]; exact List.Perm.refl _)
    rw [hc]
    norm_num [MemoryStats.median, MemoryStats.sortedValues, MemoryStats.values, U64,
      List.insertionSort, List.orderedInsert]

/-- Counterexample to C1 exactly as stated: with two samples of value
`2^64 - 1` KB the `u64` sum of the two middle values wraps, so `median`
returns `2^63 - 1` instead of the true average `2^64 - 1` of the two middle
sorted values. -/
theorem median_overflow_cex :
    (⟨[((0 : ℚ), U64 - 1), ((1 : ℚ), U64 - 1)]⟩ : MemoryStats).median
        = ((2 ^ 63 - 1 : ℕ) : ℚ) ∧
      specMedian [U64 - 1, U64 - 1] = ((U64 - 1 : ℕ) : ℚ) ∧
      (⟨[((0 : ℚ), U64 - 1), ((1 : ℚ), U64 - 1)]⟩ : MemoryStats).median
        ≠ specMedian [U64 - 1, U64 - 1] := by
  refine ⟨?_, ?_, ?_⟩ <;>
    norm_num [MemoryStats.median, specMedian, MemoryStats.sortedValues,
      MemoryStats.values, U64, List.insertionSort, List.orderedInsert]

/-- Witness for C1 at the series `[(0,100), (1,300), (2,200), (3,400)]`. -/
theorem median_is_sorted_middle_witness :
    (⟨[((0 : ℚ), 100), (1, 300), (2, 200), (3, 400)]⟩ : MemoryStats).median
        = specMedian [100, 300, 200, 400] ∧
      (⟨[((0 : ℚ), 100), (1, 300), (2, 200), (3, 400)]⟩ : MemoryStats).median = 250 ∧
      (⟨[((0 : ℚ), 100), (1, 200), (2, 300)]⟩ : MemoryStats).median = 200 := by
  have h := median_is_sorted_middle
    ⟨[((0 : ℚ), 100), (1, 300), (2, 200), (3, 400)]⟩ (by decide) (by decide)
  exact ⟨h.1, h.2.2.2.1 _ (by decide), h.2.2.2.2 _ (by decide)⟩

lemma MemoryStats.max_spec (s : MemoryStats) (hne : s.samples ≠ []) :
    s.max ∈ s.values ∧ ∀ x ∈ s.values, x ≤ s.max := by
  have hvne : s.values ≠ [] := by simp [MemoryStats.values, hne]
  obtain ⟨m, hm⟩ := WithBot.ne_bot_iff_exists.mp
    (List.maximum_ne_bot_of_ne_nil hvne)
  have hspec := List.maximum_eq_coe_iff.mp hm.symm
  have hys : s.max = m := by simp [MemoryStats.max, ← hm]
  rw [hys]
  exact hspec

lemma MemoryStats.min_spec (s : MemoryStats) (hne : s.samples ≠ []) :
    s.min ∈ s.values ∧ ∀ x ∈ s.values, s.min ≤ x := by
  have hvne : s.values ≠ [] := by simp [MemoryStats.values, hne]
  obtain ⟨m, hm⟩ := WithTop.ne_top_iff_exists.mp
    (List.minimum_ne_top_of_ne_nil hvne)
  have hspec := List.minimum_eq_coe_iff.mp hm.symm
  have hys : s.min = m := by
    rw [MemoryStats.min, ← hm]
    rfl
  rw [hys]
  exact hspec

/-- **C6**: for every non-empty series whose memory sum fits in `u64`,
`mean` is exactly `sum / count` as a rational, and `max` / `min` are the
greatest / least memory value across all samples. -/
theorem nonempty_stats_correct (s : MemoryStats) (hne : s.samples ≠ [])
    (hsum : s.values.sum < U64) :
    s.mean = (s.values.sum : ℚ) / (s.samples.length : ℚ) ∧
      s.max ∈ s.values ∧ (∀ x ∈ s.values, x ≤ s.max) ∧
      s.min ∈ s.values ∧ (∀ x ∈ s.values, s.min ≤ x) := by
  refine ⟨?_, (s.max_spec hne).1, (s.max_spec hne).2,
    (s.min_spec hne).1, (s.min_spec hne).2⟩
  simp [MemoryStats.mean, hne, Nat.mod_eq_of_lt hsum]

/-- Witness for C6 at the single sample `(t = 0, 500 KB)`:
`mean = median = max = min = 500`. -/
theorem nonempty_stats_correct_witness :
    (⟨[((0 : ℚ), 500)]⟩ : MemoryStats).mean = 500 ∧
      (⟨[((0 : ℚ), 500)]⟩ : MemoryStats).median = 500 ∧
      (⟨[((0 : ℚ), 500)]⟩ : MemoryStats).max = 500 ∧
      (⟨[((0 : ℚ), 500)]⟩ : MemoryStats).min = 500 := by
  have h := nonempty_stats_correct ⟨[((0 : ℚ), 500)]⟩ (by decide) (by decide)
  refine ⟨?_, ?_, ?_, ?_⟩
  · rw [h.1]
    norm_num [MemoryStats.values]
  · norm_num [MemoryStats.median, MemoryStats.sortedValues, MemoryStats.values,
      U64, List.insertionSort, List.orderedInsert]
  · have hm : (⟨[((0 : ℚ), 500)]⟩ : MemoryStats).max ∈ [500] := by
      simpa [MemoryStats.values] using h.2.1
    simpa using hm
  · have hm : (⟨[((0 : ℚ), 500)]⟩ : MemoryStats).min ∈ [500] := by
      simpa [MemoryStats.values] using h.2.2.2.1
    simpa using hm

lemma csv_foldl_data (l : List (ℚ × ℕ)) :
    ∀ acc : String,
      (l.foldl (fun a p => a ++ (toString p.2 ++ "\n")) acc).data
        = acc.data
          ++ ((l.map (fun p => toString p.2 ++ "\n")).map String.data).flatten := by
  induction l with
  | nil => intro acc; simp
  | cons p l ih => intro acc; simp [ih]

/-- **C5**: the exported CSV content is exactly one newline-terminated line
per sample, holding only the memory value, in original time order — it is the
concatenation, over the samples in insertion order, of `"{memory}\n"`; for
the samples `[111, 222, 333]` KB it is literally `"111\n222\n333\n"`. -/
theorem csv_one_line_per_sample :
    (∀ stats : MemoryStats,
      csv_content stats
        = String.join (stats.samples.map (fun p => toString p.2 ++ "\n"))) ∧
      csv_content ⟨[((0 : ℚ), 111), (1, 222), (2, 333)]⟩ = "111\n222\n333\n" := by
  constructor
  · intro stats
    apply String.ext
    rw [String.data_join]
    simpa using csv_foldl_data stats.samples ""
  · rfl

/-- **C7**: for a non-empty series the chart x-range ends at the elapsed time
of the final sample, the y-range is `[max(0, min_MB - m), max_MB + m]` with
margin `m = (max_MB - min_MB) / 10` and `MB = KB / 1024`; a single-sample
series has margin exactly `0` (no division-by-zero: the divisor is the
constant `10`) and degenerate equal y-bounds. -/
theorem chart_ranges_correct (s : MemoryStats) (hne : s.samples ≠ []) :
    (generate_chart s).max_time = (s.samples.getLast hne).1 ∧
      (generate_chart s).y_min
        = Max.max 0 ((s.min : ℚ) / 1024
            - ((s.max : ℚ) / 1024 - (s.min : ℚ) / 1024) / 10) ∧
      (generate_chart s).y_max
        = (s.max : ℚ) / 1024 + ((s.max : ℚ) / 1024 - (s.min : ℚ) / 1024) / 10 ∧
      (∀ t v, s.samples = [(t, v)] →
        ((s.max : ℚ) / 1024 - (s.min : ℚ) / 1024) / 10 = 0 ∧
          (generate_chart s).y_min = (generate_chart s).y_max) := by
  refine ⟨?_, ?_, rfl, ?_⟩
  · simp [generate_chart, List.getLast?_eq_getLast_of_ne_nil hne]
  · simp [generate_chart, max_comm]
  · intro t v hs
    have hmax : s.max = v := by
      simp [MemoryStats.max, MemoryStats.values, hs]
    have hmin : s.min = v := by
      simp only [MemoryStats.min, MemoryStats.values, hs, List.map_cons,
        List.map_nil, List.minimum_singleton]
      rfl
    have h0 : (0 : ℚ) ≤ (v : ℚ) / 1024 := by positivity
    constructor
    · rw [hmax, hmin]
      ring
    · simp [generate_chart, hmax, hmin, max_eq_left h0]

/-- Witness for C7 at the single-sample series `[(0, 500)]`. -/
theorem chart_ranges_correct_witness :
    (generate_chart ⟨[((0 : ℚ), 500)]⟩).max_time = 0 ∧
      (generate_chart ⟨[((0 : ℚ), 500)]⟩).y_min
        = (generate_chart ⟨[((0 : ℚ), 500)]⟩).y_max := by
  have h := chart_ranges_correct ⟨[((0 : ℚ), 500)]⟩ (by decide)
  exact ⟨h.1, (h.2.2.2 0 500 rfl).2⟩

/-- **C9**: with zero samples the finishing sequence still produces the full
statistics report (count `0`, all reductions `0`), skips chart generation
(`none` in the chart slot — a deliberate branch, not an error), and completes
normally. -/
theorem empty_run_finishes_clean (s : MemoryStats) (csv_output : Option String)
    (h : s.samples = []) :
    finishRun s csv_output
      = (⟨0, 0, 0, 0, 0⟩, none, csv_output.map (fun _ => "")) := by
  cases s with
  | mk samples =>
    subst h
    cases csv_output <;> rfl

/-- Witness for C9 at the empty store with a configured CSV path. -/
theorem empty_run_finishes_clean_witness :
    MemoryStats.new.samples = [] ∧
      finishRun MemoryStats.new (some "memory_usage.csv")
        = (⟨0, 0, 0, 0, 0⟩, none, some "") :=
  ⟨rfl, empty_run_finishes_clean MemoryStats.new (some "memory_usage.csv") rfl⟩

/-- **C10**: with zero samples and a configured CSV path, the CSV content is
still produced — as the empty string, zero lines — while the chart slot is
the skipped branch: the emptiness test guards only chart generation. -/
theorem empty_csv_still_written (s : MemoryStats) (path : String)
    (h : s.samples = []) :
    (finishRun s (some path)).2.2 = some "" ∧
      (finishRun s (some path)).2.1 = none := by
  cases s with
  | mk samples =>
    subst h
    exact ⟨rfl, rfl⟩

/-- Witness for C10 at the empty store and the path `"data.csv"`. -/
theorem empty_csv_still_written_witness :
    (finishRun MemoryStats.new (some "data.csv")).2.2 = some "" ∧
      (finishRun MemoryStats.new (some "data.csv")).2.1 = none :=
  empty_csv_still_written MemoryStats.new "data.csv" rfl

lemma runLoop_samples_lt (D : ℚ) (elapsedAt : ℕ → ℚ) (readAt : ℕ → Option ℕ)
    (st : MemoryStats) (r : StopReason) :
    ∀ (fuel k : ℕ) (s0 : MemoryStats),
      (∀ p ∈ s0.samples, p.1 < D) →
      runLoop (some D) elapsedAt readAt fuel k s0 = some (st, r) →
      ∀ p ∈ st.samples, p.1 < D := by
  intro fuel
  induction fuel with
  | zero =>
    intro k s0 h0 hrun
    simp [runLoop] at hrun
  | succ n ih =>
    intro k s0 h0 hrun
    simp only [runLoop] at hrun
    by_cases hD : D ≤ elapsedAt k
    · have hdr : durationReached (some D) (elapsedAt k) = true := by
        simp [durationReached, hD]
      rw [hdr] at hrun
      simp only [if_true] at hrun
      obtain ⟨h1, _⟩ := Prod.mk.injEq .. ▸ Option.some.inj hrun
      exact h1 ▸ h0
    · have hdr : durationReached (some D) (elapsedAt k) = false := by
        simp [durationReached, hD]
      rw [hdr] at hrun
      simp only [Bool.false_eq_true, if_false] at hrun
      cases hread : readAt k with
      | some kb =>
        rw [hread] at hrun
        refine ih (k + 1) (s0.add_sample (elapsedAt k) kb) ?_ hrun
        intro p hp
        simp only [MemoryStats.add_sample, List.mem_append,
          List.mem_singleton] at hp
        rcases hp with hp | hp
        · exact h0 p hp
        · rw [hp]
          exact lt_of_not_le hD
      | none =>
        rw [hread] at hrun
        obtain ⟨h1, _⟩ := Prod.mk.injEq .. ▸ Option.some.inj hrun
        exact h1 ▸ h0

lemma runLoop_stops_at_duration (D : ℚ) (elapsedAt : ℕ → ℚ)
    (readAt : ℕ → Option ℕ) (fuel k : ℕ) (s0 : MemoryStats)
    (hD : D ≤ elapsedAt k) (hfuel : 0 < fuel) :
    runLoop (some D) elapsedAt readAt fuel k s0
      = some (s0, StopReason.stoppedByDuration) := by
  cases fuel with
  | zero => omega
  | succ n =>
    have hdr : durationReached (some D) (elapsedAt k) = true := by
      simp [durationReached, hD]
    simp [runLoop, hdr]

lemma runLoop_target_gone (elapsedAt : ℕ → ℚ) (readAt : ℕ → Option ℕ) :
    ∀ (n k fuel : ℕ) (s0 : MemoryStats),
      (∀ j, j < n → (readAt (k + j)).isSome) →
      readAt (k + n) = none →
      n < fuel →
      ∃ st, runLoop none elapsedAt readAt fuel k s0
          = some (st, StopReason.stoppedByTargetGone) ∧
        st.samples.length = s0.samples.length + n := by
  intro n
  induction n with
  | zero =>
    intro k fuel s0 _ hfail hfuel
    cases fuel with
    | zero => omega
    | succ m =>
      refine ⟨s0, ?_, by simp⟩
      have hf0 : readAt k = none := by simpa using hfail
      simp [runLoop, durationReached, hf0]
  | succ n ih =>
    intro k fuel s0 hok hfail hfuel
    cases fuel with
    | zero => omega
    | succ m =>
      have h0 : (readAt k).isSome := by
        have := hok 0 (by omega)
        simpa using this
      obtain ⟨v, hv⟩ := Option.isSome_iff_exists.mp h0
      have hrest : ∀ j, j < n → (readAt (k + 1 + j)).isSome := by
        intro j hj
        have heq : k + 1 + j = k + (j + 1) := by omega
        rw [heq]
        exact hok (j + 1) (by omega)
      have hfail' : readAt (k + 1 + n) = none := by
        have heq : k + 1 + n = k + (n + 1) := by omega
        rw [heq]
        exact hfail
      obtain ⟨st, hrun, hlen⟩ :=
        ih (k + 1) m (s0.add_sample (elapsedAt k) v) hrest hfail' (by omega)
      refine ⟨st, ?_, ?_⟩
      · simp [runLoop, durationReached, hv, hrun]
      · rw [hlen]
        simp [MemoryStats.add_sample]
        omega

/-- **C3**: with a configured maximum duration `D`, a run started from the
empty store only ever records samples whose elapsed time is strictly below
`D`; and at any tick where the elapsed time has reached `D`, the loop stops
as `StoppedByDuration` with the store exactly as it was — no further sample
is taken. -/
theorem duration_cutoff_strict (D : ℚ) (elapsedAt : ℕ → ℚ)
    (readAt : ℕ → Option ℕ) (fuel : ℕ) (st : MemoryStats) (r : StopReason)
    (hrun : runLoop (some D) elapsedAt readAt fuel 0 MemoryStats.new
      = some (st, r)) :
    (∀ p ∈ st.samples, p.1 < D) ∧
      ∀ (k : ℕ) (s0 : MemoryStats), D ≤ elapsedAt k → 0 < fuel →
        runLoop (some D) elapsedAt readAt fuel k s0
          = some (s0, StopReason.stoppedByDuration) := by
  constructor
  · refine runLoop_samples_lt D elapsedAt readAt st r fuel 0 MemoryStats.new
      ?_ hrun
    intro p hp
    simp [MemoryStats.new] at hp
  · intro k s0 hD hf
    exact runLoop_stops_at_duration D elapsedAt readAt fuel k s0 hD hf

/-- Witness for C3: duration `2`, elapsed time `k` at tick `k`, a reader that
always succeeds; the run stops by duration after the samples at times `0`
and `1`, both strictly below `2`. -/
theorem duration_cutoff_strict_witness :
    (0 : ℚ) < 2 ∧
      runLoop (some 2) (fun k => (k : ℚ)) (fun _ => some 100) 5 2 MemoryStats.new
        = some (MemoryStats.new, StopReason.stoppedByDuration) := by
  have h := duration_cutoff_strict 2 (fun k => (k : ℚ)) (fun _ => some 100) 5
    ⟨[((0 : ℚ), 100), ((1 : ℚ), 100)]⟩ StopReason.stoppedByDuration rfl
  exact ⟨h.1 ((0 : ℚ), 100) (by decide),
    h.2 2 MemoryStats.new (by norm_num) (by norm_num)⟩

/-- **C4**: with no duration bound and a reader that succeeds on its first
`n` calls and fails on call `n + 1` (index `n`), the run from the empty
store stops as `StoppedByTargetGone` with exactly `n` samples — no retry —
and the statistics of the collected samples are still computed, reaching no
division-by-zero and no out-of-bounds index. -/
theorem target_gone_sample_count (elapsedAt : ℕ → ℚ) (readAt : ℕ → Option ℕ)
    (n fuel : ℕ)
    (hok : ∀ j, j < n → (readAt j).isSome)
    (hfail : readAt n = none)
    (hfuel : n < fuel) :
    ∃ st : MemoryStats,
      runLoop none elapsedAt readAt fuel 0 MemoryStats.new
          = some (st, StopReason.stoppedByTargetGone) ∧
        st.samples.length = n ∧
        st.meanChecked = some st.mean ∧
        st.medianChecked = some st.median := by
  obtain ⟨st, hrun, hlen⟩ := runLoop_target_gone elapsedAt readAt n 0 fuel
    MemoryStats.new (by simpa using hok) (by simpa using hfail) hfuel
  exact ⟨st, hrun, by simpa [MemoryStats.new] using hlen,
    st.meanChecked_eq, st.medianChecked_eq⟩

/-- Witness for C4: a reader failing on its 3rd call leaves exactly 2
samples. -/
theorem target_gone_sample_count_witness :
    (⟨[((0 : ℚ), 100), ((1 : ℚ), 200)]⟩ : MemoryStats).samples.length = 2 := by
  obtain ⟨st, hrun, hlen, _, _⟩ := target_gone_sample_count (fun k => (k : ℚ))
    (fun k => if k < 2 then some (100 * (k + 1)) else none) 2 5
    (by decide) (by rfl) (by omega)
  have hcalc : runLoop none (fun k => (k : ℚ))
      (fun k => if k < 2 then some (100 * (k + 1)) else none) 5 0 MemoryStats.new
      = some (⟨[((0 : ℚ), 100), ((1 : ℚ), 200)]⟩, StopReason.stoppedByTargetGone) := by
    rfl
  rw [hcalc] at hrun
  simp only [Option.some.injEq, Prod.mk.injEq] at hrun
  rw [hrun.1]
  exact hlen
